import Mathlib

/-!
# Verification of the color-viewer data loader

Shallow embedding of the `load_data` routine of `streamlit_app.py`:
reading the CSV table, validating required columns, defaulting missing
`Group` cells, normalizing the R/G/B color channels, ordering the group
labels by the dual numeric/text sort key, and partitioning the rows into
per-group record sets.

A table is modelled as it appears after CSV parsing: a list of column
names and a list of rows, each row a list of cells aligned with the
columns.  A cell is `Option String`: `none` models a missing or empty
CSV field, which the CSV reader represents as NaN (its default na-values
include the empty string); `some s` models a field with text `s`.
Rows are identified by their index in the input table, so that the
grouped output can be compared against the input row set.
-/

namespace ColorViewer

/-- Python `str.strip()` (ASCII whitespace): drop leading and trailing
whitespace characters. -/
def strip (s : String) : String :=
  ⟨((s.data.dropWhile Char.isWhitespace).reverse.dropWhile Char.isWhitespace).reverse⟩

/-- Value of a digit string read in base 10. -/
def digitsVal (cs : List Char) : Nat :=
  cs.foldl (fun acc c => 10 * acc + (c.toNat - 48)) 0

/-- Split a character list at the first "." character, if any: `"12.5"` becomes
`(`12`, some `5`)`, a dotless string keeps `none`. -/
def splitAtDot : List Char → (List Char × Option (List Char))
  | [] => ([], none)
  | c :: t =>
    if c = '.' then ([], some t)
    else
      let p := splitAtDot t
      (c :: p.1, p.2)

/-- Numeric parse of a cell, modelling `pd.to_numeric` with coercing error mode
on decimal literals: strip whitespace, optional sign, digits with at most
one decimal point, at least one digit; anything else coerces to `none`
(NaN).  The value `i.f` with `k` fraction digits is the rational
`±(i * 10^k + f) / 10^k`. -/
def parseNum (s : String) : Option Rat :=
  let cs := (strip s).data
  let signRest : Bool × List Char :=
    match cs with
    | '-' :: t => (true, t)
    | '+' :: t => (false, t)
    | _ => (false, cs)
  let p := splitAtDot signRest.2
  let frac := p.2.getD []
  let ds := p.1 ++ frac
  if ds.isEmpty || !ds.all Char.isDigit then none
  else
    let n : Nat := digitsVal p.1 * 10 ^ frac.length + digitsVal frac
    some (mkRat (if signRest.1 then -(n : Int) else (n : Int)) (10 ^ frac.length))

/-- Embedding of lines 43–45: `pd.to_numeric(df[col]).fillna(0)` (coercing error mode)
followed by `np.clip(s, 0, 255).astype(int)`.  `clampRat` is
`np.clip(·, 0, 255)`; `normColor` coerces the cell to a number
(unparseable and missing values become 0), clamps to [0, 255] and
truncates to an integer (on the clamped nonnegative value, truncation is
the floor). -/
def clampRat (q : Rat) : Rat :=
  if q ≤ 0 then 0 else if 255 ≤ q then 255 else q

/-- Coerce, clamp and truncate one color cell (lines 43–45). -/
def normColor (cell : Option String) : Int :=
  (clampRat ((cell.bind parseNum).getD 0)).floor

/-- Python one-shot dot removal `s.replace(dot, empty, 1)`: remove the first "." occurrence. -/
def removeFirstDot : List Char → List Char
  | [] => []
  | c :: t => if c = '.' then t else c :: removeFirstDot t

/-- The numeric test of `sort_key` (line 49):
`s.replace(dot, empty, 1).isdigit()` — after dropping one decimal point the
string is nonempty and all digits. -/
def isNumericLike (s : String) : Bool :=
  let cs := removeFirstDot s.data
  !cs.isEmpty && cs.all Char.isDigit

/-- Numeric value of a label, `float(s)` for the strings accepted by
`isNumericLike` (defaults to 0 elsewhere; `sort_key` only uses it under
the numeric test). -/
def numValue (s : String) : Rat :=
  (parseNum s).getD 0

/-- Sort key of a group label (lines 47–49): a tagged value, numeric-looking
labels carry their numeric value, the rest carry the stripped text. -/
inductive SKey where
  | num (q : Rat)
  | txt (s : String)
deriving DecidableEq

/-- Embedding of `sort_key` (lines 47–49): strip the label, tag it numeric
or text. -/
def sort_key (x : String) : SKey :=
  let s := strip x
  if isNumericLike s then .num (numValue s) else .txt s

/-- Executable strict lexicographic comparison of character lists, by
code point — the order Python uses on strings (see `charsLT_iff` below
relating it to the list order underlying the `String` order). -/
def charsLT : List Char → List Char → Bool
  | [], [] => false
  | [], _ :: _ => true
  | _ :: _, [] => false
  | a :: as, b :: bs => if a = b then charsLT as bs else decide (a < b)

/-- Executable `≤` on strings (lexicographic by code point). -/
def strLE (a b : String) : Bool :=
  !charsLT b.data a.data

/-- Order on sort keys, as Python compares the tuples
`(not numeric, value-or-string)`: numeric keys sort before text keys,
numeric keys compare by value, text keys compare lexicographically. -/
def keyLE : SKey → SKey → Bool
  | .num a, .num b => decide (a ≤ b)
  | .num _, .txt _ => true
  | .txt _, .num _ => false
  | .txt a, .txt b => strLE a b

/-- Insert a label into a list sorted by `keyLE ∘ sort_key`, after any
strictly smaller keys and before equal ones. -/
def insertKey (x : String) : List String → List String
  | [] => [x]
  | h :: t => if keyLE (sort_key x) (sort_key h) then x :: h :: t else h :: insertKey x t

/-- Stable sort of the group labels by `sort_key`, the embedding of
`sorted(df[Group].unique(), key=sort_key)` (line 51): the Python built-in `sorted`
is the stable sort by the key, which insertion sort realizes. -/
def sortLabels : List String → List String
  | [] => []
  | h :: t => insertKey h (sortLabels t)

/-- Distinct values in order of first appearance, skipping values already
seen. -/
def uniqueFirstAux (seen : List String) : List String → List String
  | [] => []
  | h :: t =>
    if seen.contains h then uniqueFirstAux seen t
    else h :: uniqueFirstAux (h :: seen) t

/-- Embedding of `df[Group].unique()`: the distinct values in order of
first appearance. -/
def uniqueFirst (l : List String) : List String :=
  uniqueFirstAux [] l

/-- A cell of the parsed table: `none` is a missing/empty field (NaN). -/
abbrev Cell := Option String

/-- A row: cells aligned with the table's column list. -/
abbrev Row := List Cell

/-- The parsed CSV table. -/
structure Table where
  columns : List String
  rows : List Row
deriving DecidableEq

/-- Cell of a row under a column name (`row[col]`); `none` when the column
is absent or the field is missing. -/
def getCell (cols : List String) (row : Row) (c : String) : Cell :=
  (List.lookup c (cols.zip row)).getD none

/-- Line 32: `required_coords`. -/
def requiredCoords : List String := ["L_star", "A_star", "B_star"]

/-- Line 33: `required_colors`. -/
def requiredColors : List String := ["R", "G", "B"]

/-- Line 34: `required_info`. -/
def requiredInfo : List String := ["ID (company, number)", "Marking", "Group"]

/-- The required columns in the order the code checks them (line 36). -/
def requiredColumns : List String := requiredCoords ++ requiredColors ++ requiredInfo

/-- The first required column absent from the table, if any — the column
whose name the error message reports (lines 36–39). -/
def firstMissing (t : Table) : Option String :=
  requiredColumns.find? (fun c => !t.columns.contains c)

/-- Group label of a row after `df[Group] = df[Group].fillna(sentinel)`
(line 41): a missing cell becomes the sentinel `"n/a"`. -/
def rowLabel (cols : List String) (row : Row) : String :=
  (getCell cols row "Group").getD "n/a"

/-- The group labels of all rows, in row order. -/
def labels (t : Table) : List String :=
  t.rows.map (rowLabel t.columns)

/-- The ordered list of distinct group labels (line 51). -/
def groupNames (t : Table) : List String :=
  sortLabels (uniqueFirst (labels t))

/-- The row indices of the group named `name` (line 55):
`df[df[Group].astype(str).str.strip() == str(name).strip()]` — the rows
whose stripped label equals the stripped group name, in input order. -/
def groupIdx (t : Table) (name : String) : List Nat :=
  (List.range t.rows.length).filter
    (fun i => strip (rowLabel t.columns (t.rows.getD i [])) == strip name)

/-- The grouped data (lines 53–56): for each ordered group name, its name
and the rows assigned to it. -/
def loadGrouped (t : Table) : List (String × List Nat) :=
  (groupNames t).map (fun name => (name, groupIdx t name))

/-- Normalized color channels of a row (lines 43–45 applied to R, G, B). -/
def rowColors (cols : List String) (row : Row) : Int × Int × Int :=
  (normColor (getCell cols row "R"), normColor (getCell cols row "G"),
    normColor (getCell cols row "B"))

/-- The two failure kinds of the loader: the source file does not exist,
or a required column is absent (carrying the column name). -/
inductive LoadError where
  | sourceNotFound
  | missingColumn (col : String)
deriving DecidableEq

/-- The output of a successful load: the grouped data, the ordered group
names, and the normalized color channels of every row. -/
structure Dataset where
  groups : List (String × List Nat)
  names : List String
  colors : List (Int × Int × Int)
deriving DecidableEq

/-- Embedding of `load_data` (lines 24–58).  The input is `none` when the
source file does not exist (the `FileNotFoundError` branch); otherwise the
parsed table.  Both error branches return a structured error and no
dataset, matching the `st.error(...)` followed by `return None, None`. -/
def load_data : Option Table → Except LoadError Dataset
  | none => .error .sourceNotFound
  | some t =>
    match firstMissing t with
    | some c => .error (.missingColumn c)
    | none => .ok ⟨loadGrouped t, groupNames t, t.rows.map (rowColors t.columns)⟩

deriving instance DecidableEq for Except

/-- A well-formed row with all nine required cells and a given `Group`
cell (columns in the order of `requiredColumns`). -/
def mkRow (g : Cell) : Row :=
  [some "50", some "0", some "0", some "10", some "20", some "30",
    some "id 1", some "7", g]

/-- Two rows whose distinct `Group` labels `"1"` and `" 1"` agree after
stripping: the grouping filter compares stripped labels, so each row is
assigned to both groups. -/
def tDup : Table :=
  ⟨requiredColumns, [mkRow (some "1"), mkRow (some " 1")]⟩

/-- Two rows with the non-numeric `Group` labels `" z"` and `"a"`: raw
lexicographic order puts `" z"` first, the stripped comparison of the
code puts `"a"` first. -/
def tLex : Table :=
  ⟨requiredColumns, [mkRow (some " z"), mkRow (some "a")]⟩

/-- A table with a `Hex` column in place of `R`, `G`, `B`; all other
required columns present. -/
def tHex : Table :=
  ⟨["L_star", "A_star", "B_star", "Hex", "ID (company, number)", "Marking", "Group"],
    [[some "50", some "0", some "0", some "aabbcc", some "id 1", some "7", some "1"]]⟩

/-- A well-formed table: one row in group `"1"`, one row with a missing
`Group` cell. -/
def tOk : Table :=
  ⟨requiredColumns, [mkRow (some "1"), mkRow none]⟩

/-- A table lacking the required column `Marking`. -/
def tMissing : Table :=
  ⟨["L_star", "A_star", "B_star", "R", "G", "B", "ID (company, number)", "Group"], []⟩

/-! ### Helper lemmas -/

theorem getD_mem {α : Type} {l : List α} {i : Nat} (h : i < l.length) (d : α) :
    l.getD i d ∈ l := by
  induction l generalizing i with
  | nil => simp at h
  | cons x xs ih =>
    cases i with
    | zero => simp
    | succ j =>
      simp only [List.getD_cons_succ]
      exact List.mem_cons_of_mem x (ih (by simpa using h))

theorem clampRat_nonneg (q : Rat) : 0 ≤ clampRat q := by
  unfold clampRat
  split_ifs with h1 h2
  · exact le_refl 0
  · norm_num
  · linarith [lt_of_not_le h1]

theorem clampRat_le (q : Rat) : clampRat q ≤ 255 := by
  unfold clampRat
  split_ifs with h1 h2
  · norm_num
  · exact le_refl _
  · linarith [lt_of_not_le h2]

theorem floor_nonneg_of_nonneg {r : Rat} (h : 0 ≤ r) : 0 ≤ r.floor :=
  Rat.le_floor.mpr (by exact_mod_cast h)

theorem floor_le_255_of_le {r : Rat} (h : r ≤ 255) : r.floor ≤ 255 := by
  by_contra hc
  push_neg at hc
  have h256 : (256 : Int) ≤ r.floor := hc
  have h1 : ((256 : Int) : Rat) ≤ r := Rat.le_floor.mp h256
  have h2 : (256 : Rat) ≤ r := by exact_mod_cast h1
  linarith

theorem normColor_parse_none (s : String) (h : parseNum s = none) :
    normColor (some s) = 0 := by
  have hb : (some s).bind parseNum = none := by simp [h]
  unfold normColor
  rw [hb]
  decide

theorem load_data_some (t : Table) :
    load_data (some t) =
      match firstMissing t with
      | some c => .error (.missingColumn c)
      | none => .ok ⟨loadGrouped t, groupNames t, t.rows.map (rowColors t.columns)⟩ := rfl

theorem load_data_ok {t : Table} {d : Dataset} (h : load_data (some t) = .ok d) :
    d = ⟨loadGrouped t, groupNames t, t.rows.map (rowColors t.columns)⟩ := by
  rw [load_data_some] at h
  cases hf : firstMissing t with
  | some c => rw [hf] at h; cases h
  | none =>
    rw [hf] at h
    injection h with h
    exact h.symm

theorem perm_insertKey (x : String) (l : List String) :
    List.Perm (insertKey x l) (x :: l) := by
  induction l with
  | nil => exact List.Perm.refl _
  | cons h t ih =>
    by_cases hk : keyLE (sort_key x) (sort_key h)
    · simp [insertKey, hk]
    · simp only [insertKey, hk, if_false, Bool.false_eq_true]
      exact (ih.cons h).trans (List.Perm.swap x h t)

theorem perm_sortLabels (l : List String) : List.Perm (sortLabels l) l := by
  induction l with
  | nil => exact List.Perm.refl _
  | cons h t ih => exact (perm_insertKey h (sortLabels t)).trans (ih.cons h)

theorem mem_uniqueFirstAux {a : String} {seen l : List String} :
    a ∈ uniqueFirstAux seen l ↔ a ∈ l ∧ a ∉ seen := by
  induction l generalizing seen with
  | nil => simp [uniqueFirstAux]
  | cons h t ih =>
    simp only [uniqueFirstAux]
    by_cases hs : seen.contains h
    · have hh : h ∈ seen := List.elem_iff.mp hs
      rw [if_pos hs, ih]
      constructor
      · rintro ⟨hm, hn⟩
        exact ⟨List.mem_cons_of_mem h hm, hn⟩
      · rintro ⟨hm, hn⟩
        rcases List.mem_cons.mp hm with rfl | hm
        · exact absurd hh hn
        · exact ⟨hm, hn⟩
    · have hh : h ∉ seen := fun hmem => hs (List.elem_iff.mpr hmem)
      rw [if_neg hs, List.mem_cons, ih]
      constructor
      · rintro (rfl | ⟨hm, hn⟩)
        · exact ⟨List.mem_cons_self a t, hh⟩
        · exact ⟨List.mem_cons_of_mem h hm,
            fun hx => hn (List.mem_cons_of_mem h hx)⟩
      · rintro ⟨hm, hn⟩
        rcases List.mem_cons.mp hm with rfl | hm
        · exact Or.inl rfl
        · by_cases hah : a = h
          · exact Or.inl hah
          · refine Or.inr ⟨hm, fun hx => ?_⟩
            rcases List.mem_cons.mp hx with rfl | hx
            · exact hah rfl
            · exact hn hx

theorem nodup_uniqueFirstAux (seen l : List String) : (uniqueFirstAux seen l).Nodup := by
  induction l generalizing seen with
  | nil => simp [uniqueFirstAux]
  | cons h t ih =>
    simp only [uniqueFirstAux]
    by_cases hs : seen.contains h
    · rw [if_pos hs]
      exact ih seen
    · rw [if_neg hs, List.nodup_cons]
      refine ⟨fun hmem => ?_, ih (h :: seen)⟩
      rcases mem_uniqueFirstAux.mp hmem with ⟨_, hns⟩
      exact hns (List.mem_cons_self h seen)

theorem mem_uniqueFirst {a : String} {l : List String} : a ∈ uniqueFirst l ↔ a ∈ l := by
  simp [uniqueFirst, mem_uniqueFirstAux]

theorem nodup_uniqueFirst (l : List String) : (uniqueFirst l).Nodup :=
  nodup_uniqueFirstAux [] l

theorem mem_groupNames {a : String} {t : Table} : a ∈ groupNames t ↔ a ∈ labels t := by
  rw [groupNames, (perm_sortLabels (uniqueFirst (labels t))).mem_iff, mem_uniqueFirst]

theorem mem_groupIdx {t : Table} {name : String} {i : Nat} :
    i ∈ groupIdx t name ↔
      i < t.rows.length ∧ strip (rowLabel t.columns (t.rows.getD i [])) = strip name := by
  simp [groupIdx, List.mem_filter, List.mem_range]

/-! ### C3: a missing required column fails the load, naming an absent column -/

/-- C3: for every input table missing at least one required column, the
load fails with an error naming a required column that is indeed absent,
and no dataset is produced. -/
theorem c3_missing_column (t : Table) (c : String) (hc : c ∈ requiredColumns)
    (hmem : c ∉ t.columns) :
    ∃ cm, load_data (some t) = .error (.missingColumn cm) ∧
      cm ∈ requiredColumns ∧ cm ∉ t.columns := by
  have hsome : (requiredColumns.find? (fun x => !t.columns.contains x)).isSome := by
    rw [List.find?_isSome]
    refine ⟨c, hc, ?_⟩
    simp [List.elem_iff, hmem]
  rcases Option.isSome_iff_exists.mp hsome with ⟨cm, hcm⟩
  refine ⟨cm, ?_, List.mem_of_find?_eq_some hcm, ?_⟩
  · have hfm : firstMissing t = some cm := hcm
    rw [load_data_some, hfm]
  · have hp := List.find?_some hcm
    simpa [List.elem_iff] using hp

/-- Witness for C3: the concrete table lacking `Marking` fails the load
naming an absent required column. -/
theorem c3_missing_column_witness :
    ∃ cm, load_data (some tMissing) = .error (.missingColumn cm) ∧
      cm ∈ requiredColumns ∧ cm ∉ tMissing.columns :=
  c3_missing_column tMissing "Marking" (by decide) (by decide)

/-! ### C4: a missing source file yields the structured not-found error -/

/-- C4: when the input source does not exist, the load fails with the
structured `sourceNotFound` error and the returned dataset is empty (the
total embedding returns the error to the caller; no exception escapes). -/
theorem c4_source_not_found : load_data none = .error .sourceNotFound := rfl

/-! ### C5: R/G/B normalization coerces, clamps and truncates -/

/-- C5: every color cell is coerced to a number (unparseable values
become 0), clamped to [0, 255] and truncated to an integer; in
particular `"300"` maps to 255, `"abc"` maps to 0 and `"-5"` maps to 0. -/
theorem c5_color_normalization :
    (∀ v : Cell, 0 ≤ normColor v ∧ normColor v ≤ 255) ∧
    (∀ s : String, parseNum s = none → normColor (some s) = 0) ∧
    normColor (some "300") = 255 ∧ normColor (some "abc") = 0 ∧
    normColor (some "-5") = 0 ∧ normColor (some "3.7") = 3 ∧ normColor none = 0 := by
  refine ⟨fun v => ?_, normColor_parse_none, by decide, by decide, by decide, by decide, rfl⟩
  unfold normColor
  exact ⟨floor_nonneg_of_nonneg (clampRat_nonneg _), floor_le_255_of_le (clampRat_le _)⟩

/-- Witness for C5: the parse-failure clause evaluated at a concrete
unparseable cell. -/
theorem c5_color_normalization_witness : normColor (some "xyz") = 0 :=
  c5_color_normalization.2.1 "xyz" (by decide)

/-! ### C8: with all required columns present the load never fails -/

/-- C8: for every table with all required columns present the load
succeeds (the error branches are unreachable), and every unparseable
color value is silently coerced to the safe default 0. -/
theorem c8_lenient_load (t : Table) (h : ∀ c ∈ requiredColumns, c ∈ t.columns) :
    (∃ d, load_data (some t) = .ok d) ∧
    ∀ s : String, parseNum s = none → normColor (some s) = 0 := by
  have hf : firstMissing t = none := by
    unfold firstMissing
    rw [List.find?_eq_none]
    intro x hx
    simp [List.elem_iff, h x hx]
  exact ⟨⟨_, by rw [load_data_some, hf]⟩, normColor_parse_none⟩

/-- Witness for C8: the concrete well-formed table loads successfully. -/
theorem c8_lenient_load_witness :
    (∃ d, load_data (some tOk) = .ok d) ∧
    ∀ s : String, parseNum s = none → normColor (some s) = 0 :=
  c8_lenient_load tOk (by decide)

/-! ### C9: each group lists its rows in input order -/

/-- C9: within each group of the output dataset the row indices are
strictly increasing — the grouping filters rows without reordering
them. -/
theorem c9_group_row_order (t : Table) (d : Dataset)
    (h : load_data (some t) = .ok d) (g : String × List Nat) (hg : g ∈ d.groups) :
    g.2.Pairwise (· < ·) := by
  rw [load_data_ok h] at hg
  rcases List.mem_map.mp hg with ⟨name, _, rfl⟩
  exact (List.pairwise_lt_range _).filter _

/-- Witness for C9: the first group of the concrete table, with its rows
in input order. -/
theorem c9_group_row_order_witness : ([0] : List Nat).Pairwise (· < ·) :=
  c9_group_row_order tOk
    ⟨loadGrouped tOk, groupNames tOk, tOk.rows.map (rowColors tOk.columns)⟩
    rfl ("1", [0]) (by decide)

/-! ### C10: the load is deterministic -/

/-- C10: two runs of the load on identical input produce identical
outputs. -/
theorem c10_deterministic (a b : Option Table) (h : a = b) :
    load_data a = load_data b := by rw [h]

/-- Witness for C10: determinism evaluated at the concrete table. -/
theorem c10_deterministic_witness : load_data (some tOk) = load_data (some tOk) :=
  c10_deterministic (some tOk) (some tOk) rfl

/-! ### C6: missing Group cells get the sentinel label and stay in the output -/

/-- C6: a record whose `Group` cell is missing is assigned the sentinel
label `"n/a"` and appears in the `"n/a"` group of the output rather than
being dropped. -/
theorem c6_group_default (t : Table) (d : Dataset) (h : load_data (some t) = .ok d)
    (i : Nat) (hi : i < t.rows.length)
    (hcell : getCell t.columns (t.rows.getD i []) "Group" = none) :
    ∃ g ∈ d.groups, g.1 = "n/a" ∧ i ∈ g.2 := by
  rw [load_data_ok h]
  have hlab : rowLabel t.columns (t.rows.getD i []) = "n/a" := by
    rw [rowLabel, hcell]
    rfl
  have hmem : ("n/a" : String) ∈ groupNames t := by
    rw [mem_groupNames]
    exact hlab ▸ List.mem_map_of_mem (rowLabel t.columns) (getD_mem hi [])
  refine ⟨("n/a", groupIdx t "n/a"), List.mem_map_of_mem _ hmem, rfl, ?_⟩
  rw [mem_groupIdx]
  exact ⟨hi, by rw [hlab]⟩

/-- Witness for C6: in the concrete table, row 1 has a missing `Group`
cell and lands in the `"n/a"` group. -/
theorem c6_group_default_witness :
    ∃ g ∈ (⟨loadGrouped tOk, groupNames tOk,
        tOk.rows.map (rowColors tOk.columns)⟩ : Dataset).groups,
      g.1 = "n/a" ∧ 1 ∈ g.2 :=
  c6_group_default tOk _ rfl 1 (by decide) (by decide)

/-! ### C1: the grouping partitions the rows (corrected) -/

/-- Counterexample to C1 as stated: `tDup` has all required columns, yet
its two distinct `Group` labels `"1"` and `" 1"` agree after stripping,
so row 0 is placed in two groups — the partition is not disjoint. -/
theorem c1_duplicate_counterexample :
    firstMissing tDup = none ∧
    (loadGrouped tDup).countP (fun g => g.2.contains 0) = 2 := by
  exact ⟨rfl, by decide⟩

/-- C1 (amended): provided no two distinct group labels share the same
whitespace-stripped form, every input row is placed in exactly one group,
each group lists a row at most once, and groups only contain valid input
rows — the grouping is an exhaustive, disjoint partition of the input
row set. -/
theorem c1_partition (t : Table)
    (hinj : ∀ a ∈ uniqueFirst (labels t), ∀ b ∈ uniqueFirst (labels t),
      strip a = strip b → a = b) :
    (∀ i < t.rows.length, (loadGrouped t).countP (fun g => g.2.contains i) = 1) ∧
    (∀ g ∈ loadGrouped t, g.2.Nodup) ∧
    (∀ g ∈ loadGrouped t, ∀ i ∈ g.2, i < t.rows.length) := by
  refine ⟨?_, ?_, ?_⟩
  · intro i hi
    set lab := rowLabel t.columns (t.rows.getD i []) with hlabdef
    have hlabmem : lab ∈ uniqueFirst (labels t) :=
      mem_uniqueFirst.mpr (List.mem_map_of_mem (rowLabel t.columns) (getD_mem hi []))
    rw [loadGrouped, List.countP_map]
    have hstep : ∀ name ∈ groupNames t,
        ((fun g : String × List Nat => g.2.contains i) ∘
          fun name => (name, groupIdx t name)) name = true ↔ (name == lab) = true := by
      intro name hname
      have hnu : name ∈ uniqueFirst (labels t) :=
        ((perm_sortLabels (uniqueFirst (labels t))).mem_iff).mp hname
      show (groupIdx t name).contains i = true ↔ (name == lab) = true
      constructor
      · intro hc
        have hmem : i ∈ groupIdx t name := List.elem_iff.mp hc
        rcases mem_groupIdx.mp hmem with ⟨_, hs⟩
        have : name = lab := hinj name hnu lab hlabmem hs.symm
        simp [this]
      · intro hb
        have : name = lab := by simpa using hb
        subst this
        exact List.elem_iff.mpr (mem_groupIdx.mpr ⟨hi, rfl⟩)
    rw [List.countP_congr hstep, ← List.count_eq_countP, groupNames,
      (perm_sortLabels (uniqueFirst (labels t))).count_eq]
    exact List.count_eq_one_of_mem (nodup_uniqueFirst _) hlabmem
  · intro g hg
    rcases List.mem_map.mp hg with ⟨name, _, rfl⟩
    exact (List.nodup_range _).filter _
  · intro g hg i hi2
    rcases List.mem_map.mp hg with ⟨name, _, rfl⟩
    exact (mem_groupIdx.mp hi2).1

/-- Witness for C1 (amended): the concrete table with stripped-distinct
labels, row 0 in exactly one group. -/
theorem c1_partition_witness :
    (loadGrouped tOk).countP (fun g => g.2.contains 0) = 1 :=
  (c1_partition tOk (by decide)).1 0 (by decide)

/-! ### C2: ordering of the group label list (corrected) -/

theorem charsLT_iff_lex {a b : List Char} :
    charsLT a b = true ↔ List.Lex (· < ·) a b := by
  induction a generalizing b with
  | nil =>
    cases b with
    | nil =>
      apply iff_of_false
      · simp [charsLT]
      · intro h; cases h
    | cons y ys =>
      apply iff_of_true
      · rfl
      · exact List.Lex.nil
  | cons x xs ih =>
    cases b with
    | nil =>
      apply iff_of_false
      · simp [charsLT]
      · intro h; cases h
    | cons y ys =>
      by_cases he : x = y
      · subst he
        rw [show charsLT (x :: xs) (x :: ys) = charsLT xs ys by simp [charsLT], ih]
        constructor
        · exact List.Lex.cons
        · intro h
          cases h with
          | cons h => exact h
          | rel h => exact absurd h (lt_irrefl x)
      · rw [show charsLT (x :: xs) (y :: ys) = decide (x < y) by
          simp only [charsLT, if_neg he]]
        constructor
        · intro h
          exact List.Lex.rel (of_decide_eq_true h)
        · intro h
          cases h with
          | cons h => exact absurd rfl he
          | rel h => exact decide_eq_true h

theorem strLE_iff {a b : String} : strLE a b = true ↔ a ≤ b := by
  rw [strLE, Bool.not_eq_true', ← not_lt]
  constructor
  · intro h hba
    have hchars : charsLT b.data a.data = true :=
      charsLT_iff_lex.mpr (String.lt_iff_toList_lt.mp hba)
    rw [h] at hchars
    cases hchars
  · intro h
    cases hcb : charsLT b.data a.data
    · rfl
    · exact absurd (String.lt_iff_toList_lt.mpr (charsLT_iff_lex.mp hcb)) h

theorem keyLE_refl (k : SKey) : keyLE k k = true := by
  cases k with
  | num q => simp [keyLE]
  | txt s => simp [keyLE, strLE_iff]

theorem keyLE_total (a b : SKey) : keyLE a b = true ∨ keyLE b a = true := by
  cases a <;> cases b <;> simp [keyLE, strLE_iff]
  · exact le_total _ _
  · exact le_total _ _

theorem keyLE_trans {a b c : SKey} (h1 : keyLE a b = true) (h2 : keyLE b c = true) :
    keyLE a c = true := by
  cases a <;> cases b <;> cases c <;>
    simp only [keyLE, decide_eq_true_eq, strLE_iff] at h1 h2 ⊢ <;>
    first
      | trivial
      | exact le_trans h1 h2

theorem pairwise_keyLE_insertKey {x : String} {l : List String}
    (hl : l.Pairwise (fun a b => keyLE (sort_key a) (sort_key b) = true)) :
    (insertKey x l).Pairwise (fun a b => keyLE (sort_key a) (sort_key b) = true) := by
  induction l with
  | nil => simp [insertKey]
  | cons h t ih =>
    rcases List.pairwise_cons.mp hl with ⟨hh, ht⟩
    by_cases hk : keyLE (sort_key x) (sort_key h) = true
    · rw [insertKey, if_pos hk]
      refine List.pairwise_cons.mpr ⟨?_, hl⟩
      intro y hy
      rcases List.mem_cons.mp hy with rfl | hy
      · exact hk
      · exact keyLE_trans hk (hh y hy)
    · rw [insertKey, if_neg hk]
      refine List.pairwise_cons.mpr ⟨?_, ih ht⟩
      intro y hy
      rcases List.mem_cons.mp ((perm_insertKey x t).mem_iff.mp hy) with rfl | hy
      · rcases keyLE_total (sort_key h) (sort_key y) with htot | htot
        · exact htot
        · exact absurd htot hk
      · exact hh y hy

theorem pairwise_keyLE_sortLabels (l : List String) :
    (sortLabels l).Pairwise (fun a b => keyLE (sort_key a) (sort_key b) = true) := by
  induction l with
  | nil => simp [sortLabels]
  | cons h t ih => exact pairwise_keyLE_insertKey ih

theorem filter_key_insertKey (k : SKey) (x : String) (l : List String) :
    (insertKey x l).filter (fun a => sort_key a == k) =
      (x :: l).filter (fun a => sort_key a == k) := by
  induction l with
  | nil => rfl
  | cons h t ih =>
    by_cases hk : keyLE (sort_key x) (sort_key h) = true
    · rw [insertKey, if_pos hk]
    · rw [insertKey, if_neg hk]
      by_cases hx : sort_key x = k
      · have hne : sort_key h ≠ k := by
          intro hh
          apply hk
          have heq : sort_key h = sort_key x := hh.trans hx.symm
          rw [heq]
          exact keyLE_refl _
        have hhb : (sort_key h == k) = false := by simp [hne]
        have hxb : (sort_key x == k) = true := by simp [hx]
        simp [List.filter_cons, ih, hhb, hxb]
      · have hxb : (sort_key x == k) = false := by simp [hx]
        simp [List.filter_cons, ih, hxb]

theorem filter_key_sortLabels (k : SKey) (l : List String) :
    (sortLabels l).filter (fun a => sort_key a == k) =
      l.filter (fun a => sort_key a == k) := by
  induction l with
  | nil => rfl
  | cons h t ih =>
    rw [sortLabels, filter_key_insertKey]
    simp [List.filter_cons, ih]

theorem keyLE_sort_key_imp {a b : String}
    (h : keyLE (sort_key a) (sort_key b) = true) :
    (isNumericLike (strip b) = true → isNumericLike (strip a) = true) ∧
    (isNumericLike (strip a) = true → isNumericLike (strip b) = true →
      numValue (strip a) ≤ numValue (strip b)) ∧
    (isNumericLike (strip a) = false → isNumericLike (strip b) = false →
      strip a ≤ strip b) := by
  by_cases ha : isNumericLike (strip a) = true <;>
    by_cases hb : isNumericLike (strip b) = true <;>
    simp only [sort_key, ha, hb, if_true, if_false, Bool.false_eq_true] at h
  · simp only [keyLE, decide_eq_true_eq] at h
    exact ⟨fun _ => ha, fun _ _ => h, fun hfa => absurd ha (by simp [hfa])⟩
  · refine ⟨fun hbt => absurd hbt hb, fun _ hbt => absurd hbt hb,
      fun hfa _ => absurd ha (by simp [hfa])⟩
  · simp only [keyLE] at h
    cases h
  · simp only [keyLE, strLE_iff] at h
    exact ⟨fun hbt => absurd hbt hb, fun hat => absurd hat ha, fun _ _ => h⟩

/-- Counterexample to C2 as stated: in `tLex` both group labels are
non-numeric and the raw lexicographic string order puts `" z"` before
`"a"`, yet the loader returns `["a", " z"]` — the non-numeric labels are
not in lexicographic string order (they are compared after stripping). -/
theorem c2_lexicographic_counterexample :
    groupNames tLex = ["a", " z"] ∧ (" z" : String) < "a" ∧
    isNumericLike (strip " z") = false ∧ isNumericLike (strip "a") = false := by
  refine ⟨by decide, ?_, by decide, by decide⟩
  exact String.lt_iff_toList_lt.mpr (charsLT_iff_lex.mp (by decide))

/-- C2 (amended): the ordered label list is a permutation of the distinct
labels in which numeric-looking labels (stripped, one decimal point
allowed) come before all non-numeric labels, numeric labels are ordered
by numeric value, non-numeric labels are ordered lexicographically by
their whitespace-stripped forms, and the sort is stable (labels with
equal sort keys keep their first-appearance order, expressed as filter
invariance per key). -/
theorem c2_label_order (t : Table) :
    List.Perm (groupNames t) (uniqueFirst (labels t)) ∧
    (groupNames t).Pairwise (fun a b =>
      (isNumericLike (strip b) = true → isNumericLike (strip a) = true) ∧
      (isNumericLike (strip a) = true → isNumericLike (strip b) = true →
        numValue (strip a) ≤ numValue (strip b)) ∧
      (isNumericLike (strip a) = false → isNumericLike (strip b) = false →
        strip a ≤ strip b)) ∧
    (∀ k : SKey, (groupNames t).filter (fun a => sort_key a == k) =
      (uniqueFirst (labels t)).filter (fun a => sort_key a == k)) := by
  refine ⟨perm_sortLabels _, ?_, fun k => filter_key_sortLabels k _⟩
  exact (pairwise_keyLE_sortLabels _).imp keyLE_sort_key_imp

/-! ### C7: a Hex column does not replace R, G, B (corrected) -/

/-- Counterexample to C7 as stated: `tHex` carries a `Hex` column and all
required columns except `R`, `G`, `B`, yet the load fails with
`missingColumn "R"` instead of succeeding — this variant never consults a
`Hex` column. -/
theorem c7_hex_counterexample :
    ("Hex" ∈ tHex.columns) ∧ ("R" ∉ tHex.columns) ∧
    load_data (some tHex) = .error (.missingColumn "R") :=
  ⟨by decide, by decide, by decide⟩

/-- C7 (amended): `R`, `G`, `B` are unconditionally required; a table
whose coordinate columns are present but which lacks `R` (for example
because it provides `Hex` instead) fails the load with
`missingColumn "R"`. -/
theorem c7_rgb_required (t : Table) (h1 : "L_star" ∈ t.columns)
    (h2 : "A_star" ∈ t.columns) (h3 : "B_star" ∈ t.columns)
    (h4 : "R" ∉ t.columns) :
    load_data (some t) = .error (.missingColumn "R") := by
  have hf : firstMissing t = some "R" := by
    unfold firstMissing requiredColumns requiredCoords requiredColors requiredInfo
    simp only [List.cons_append, List.nil_append]
    rw [List.find?_cons_of_neg _ (by simp [List.elem_iff, h1]),
      List.find?_cons_of_neg _ (by simp [List.elem_iff, h2]),
      List.find?_cons_of_neg _ (by simp [List.elem_iff, h3]),
      List.find?_cons_of_pos _ (by simp [List.elem_iff, h4])]
  rw [load_data_some, hf]

/-- Witness for C7 (amended): the concrete Hex-only table fails with
`missingColumn "R"`. -/
theorem c7_rgb_required_witness :
    load_data (some tHex) = .error (.missingColumn "R") :=
  c7_rgb_required tHex (by decide) (by decide) (by decide) (by decide)

end ColorViewer
